import Mathlib

set_option maxRecDepth 40000

/-!
Shallow embedding of the doc-link-chain repository core: the hash-chained
ledger (`src/lib/blockchain.ts`), the demo envelope-encryption layer
(`src/lib/encryption.ts`), the folder-sharing coordinator
(`src/components/dashboard/ShareFolderDialog.tsx`, `handleShare`), and the
two dashboard chain validators (`validateChain` in `BlockchainStatusSection`
and `BlockchainValidation`).

JavaScript strings are embedded as `List Char`.  The two CryptoJS
primitives the repository calls are modelled as follows and every
repository-level definition below is a direct translation of the
corresponding TypeScript function over these models:

* `CryptoJS.SHA256` (inside `calculateHash`): modelled as an injective
  digest — the serialized input prefixed with the marker character `h`.
  This is the standard collision-freeness idealization: the only property
  of the digest the repository relies on is that different inputs give
  different digests, and the digest of each argument tuple is unambiguous.
  The JS code concatenates `index + timestamp + JSON.stringify(data) +
  previousHash`; the model keeps the four components in that order but
  separates them unambiguously (escaped, comma-separated), which is the
  injectivity that `JSON.stringify` plus the digest provide in practice.

* `CryptoJS.AES.encrypt(data, pass).toString()` /
  `CryptoJS.AES.decrypt(ct, pass).toString(Utf8)` (passphrase mode):
  modelled as a tagged pair.  Decrypting with the wrapping passphrase
  recovers the payload; decrypting with any other passphrase yields the
  empty string, which is how the repository treats a failed decrypt
  (every caller tests the result for JS falsiness).  CryptoJS passphrase
  AES is unauthenticated CBC, so a tampered ciphertext decrypts without
  any integrity failure; the model represents a tampered ciphertext as a
  ciphertext with an altered payload and the same passphrase.
-/

/-- JavaScript strings are embedded as lists of characters. -/
abbrev Str := List Char

/-- Decimal digit characters of `n`, most significant first, computed with
explicit fuel so that the definition reduces by kernel evaluation.  Models
JavaScript number-to-string coercion for natural numbers. -/
def natToStrAux : Nat → Nat → Str
  | 0, _ => []
  | _ + 1, 0 => []
  | fuel + 1, n + 1 =>
    natToStrAux fuel ((n + 1) / 10) ++ [Nat.digitChar ((n + 1) % 10)]

/-- Decimal representation of `n` (model of JS `String(n)`). -/
def natToStr (n : Nat) : Str :=
  if n = 0 then ['0'] else natToStrAux n n

/-- Escape a character for the unambiguous field serialization feeding the
digest model: the backslash and the field separator are backslash-escaped. -/
def escChar (c : Char) : Str :=
  if c = '\\' ∨ c = ',' then ['\\', c] else [c]

/-- Escape a string for the field serialization of the digest model. -/
def esc : Str → Str
  | [] => []
  | c :: s => escChar c ++ esc s

/-- One serialized field followed by a separator and the remaining input. -/
def fld (s r : Str) : Str :=
  esc s ++ ',' :: r

/-- BlockData record carried by every ledger block
(`src/lib/blockchain.ts`). -/
structure BlockData where
  fileName : Str
  fileHash : Str
  senderId : Str
  senderName : Str
  receiverId : Option Str
  receiverName : Option Str
  timestamp : Str
deriving DecidableEq

/-- Unambiguous encoding of an optional string field. -/
def optEnc : Option Str → Str
  | none => ['N']
  | some s => 'S' :: s

/-- Serialization of a `BlockData` record (model of `JSON.stringify(data)`,
which is injective on these records). -/
def stringifyData (d : BlockData) : Str :=
  fld d.fileName (fld d.fileHash (fld d.senderId (fld d.senderName
    (fld (optEnc d.receiverId) (fld (optEnc d.receiverName)
      (fld d.timestamp []))))))

/-- Model of `Blockchain.calculateHash(index, timestamp, data,
previousHash)`, which computes `SHA256(index + timestamp +
JSON.stringify(data) + previousHash)`.  The digest is modelled injectively,
see the header comment. -/
def calculateHash (index : Nat) (timestamp : Str) (data : BlockData)
    (previousHash : Str) : Str :=
  'h' :: fld (natToStr index)
    (fld timestamp (fld (stringifyData data) (fld previousHash [])))

/-- Block shape of `src/lib/blockchain.ts`. -/
structure Block where
  index : Nat
  timestamp : Str
  data : BlockData
  previousHash : Str
  hash : Str
deriving DecidableEq

/-- Model of `Blockchain.createGenesisBlock()`.  The TypeScript method
calls `new Date().toISOString()` three separate times (for the data
timestamp, the block timestamp, and the timestamp hashed), so the three
wall-clock readings are explicit parameters. -/
def createGenesisBlock (tsData tsBlock tsHash : Str) : Block :=
  let genesisData : BlockData :=
    ⟨['G', 'e', 'n', 'e', 's', 'i', 's', ' ', 'B', 'l', 'o', 'c', 'k'], ['0'],
      ['s', 'y', 's', 't', 'e', 'm'], ['S', 'y', 's', 't', 'e', 'm'],
      none, none, tsData⟩
  ⟨0, tsBlock, genesisData, ['0'], calculateHash 0 tsHash genesisData ['0']⟩

/-- Last element of `prev :: l` (model of `this.chain[this.chain.length - 1]`
applied to a nonempty chain). -/
def lastD (prev : Block) : List Block → Block
  | [] => prev
  | x :: xs => lastD x xs

/-- Previous block chosen by `addBlock`: the latest block if the chain is
nonempty, otherwise a freshly created genesis block. -/
def latestOr (g : Block) : List Block → Block
  | [] => g
  | x :: xs => lastD x xs

/-- Model of `Blockchain.addBlock(data)`.  `gTsData gTsBlock gTsHash` are
the wall-clock readings consumed by `createGenesisBlock` when the chain is
empty, `now` the single reading used for the new block.  Returns the
updated chain (the block is pushed at the end) together with the returned
block. -/
def addBlock (chain : List Block) (data : BlockData)
    (gTsData gTsBlock gTsHash now : Str) : List Block × Block :=
  let previousBlock := latestOr (createGenesisBlock gTsData gTsBlock gTsHash) chain
  let newIndex := previousBlock.index + 1
  let newBlock : Block :=
    ⟨newIndex, now, data, previousBlock.hash,
      calculateHash newIndex now data previousBlock.hash⟩
  (chain ++ [newBlock], newBlock)

/-- One iteration of the `isChainValid` loop body: recompute the current
block hash and compare, then check the link to the previous block. -/
def checkBlockPair (previousBlock currentBlock : Block) : Bool :=
  if currentBlock.hash ≠ calculateHash currentBlock.index
      currentBlock.timestamp currentBlock.data currentBlock.previousHash then
    false
  else if currentBlock.previousHash ≠ previousBlock.hash then
    false
  else
    true

/-- Walk of the `isChainValid` loop: check every remaining block against
its predecessor, short-circuiting on the first failure. -/
def validFrom (prev : Block) : List Block → Bool
  | [] => true
  | b :: rest => if checkBlockPair prev b then validFrom b rest else false

/-- Model of `Blockchain.isChainValid()`: the loop starts at index 1, so a
chain of length zero or one is vacuously valid and the first block of the
sequence is never itself rehashed. -/
def isChainValid : List Block → Bool
  | [] => true
  | b :: rest => validFrom b rest

/-- Chain built solely by repeated `addBlock` calls from a starting chain:
each entry supplies the payload and the wall-clock reading of one call
(the genesis readings are consumed only by the first call on an empty
chain). -/
def buildChain (gTsData gTsBlock gTsHash : Str) :
    List Block → List (BlockData × Str) → List Block
  | chain, [] => chain
  | chain, (d, now) :: rest =>
    buildChain gTsData gTsBlock gTsHash
      (addBlock chain d gTsData gTsBlock gTsHash now).1 rest

/-- Model of a CryptoJS passphrase-mode AES ciphertext: the payload
together with the passphrase it was encrypted under. -/
structure AESCiphertext where
  payload : Str
  pass : Str
deriving DecidableEq

/-- Model of `CryptoJS.AES.encrypt(data, key).toString()`. -/
def cryptoJSEncrypt (data key : Str) : AESCiphertext :=
  ⟨data, key⟩

/-- Model of `CryptoJS.AES.decrypt(ct, key).toString(CryptoJS.enc.Utf8)`:
the payload when the passphrase matches, the empty string otherwise (the
repository treats an empty result as the failure signal everywhere). -/
def cryptoJSDecrypt (ct : AESCiphertext) (key : Str) : Str :=
  if ct.pass = key then ct.payload else []

/-- Model of `encryptWithAES(data, key)` from `src/lib/encryption.ts`. -/
def encryptWithAES (data key : Str) : AESCiphertext :=
  cryptoJSEncrypt data key

/-- Model of `decryptWithAES(encryptedData, key)` from
`src/lib/encryption.ts`. -/
def decryptWithAES (encryptedData : AESCiphertext) (key : Str) : Str :=
  cryptoJSDecrypt encryptedData key

/-- The demo public key marker `PUBLIC_`. -/
def pubTag : Str := ['P', 'U', 'B', 'L', 'I', 'C', '_']

/-- The demo private key marker `PRIVATE_`. -/
def privTag : Str := ['P', 'R', 'I', 'V', 'A', 'T', 'E', '_']

/-- Remove a leading tag, or fail (model of one anchored regex
alternative). -/
def stripTag : Str → Str → Option Str
  | [], s => some s
  | _ :: _, [] => none
  | c :: p, d :: s => if c = d then stripTag p s else none

/-- Model of `deriveSharedSecret(key)`:
`key.replace(/^PUBLIC_|^PRIVATE_/, "")` strips one leading demo marker, if
present. -/
def deriveSharedSecret (key : Str) : Str :=
  match stripTag pubTag key with
  | some r => r
  | none =>
    match stripTag privTag key with
    | some r => r
    | none => key

/-- Model of `encryptKeyWithRSA(aesKey, publicKey)`: AES passphrase
encryption under the derived shared secret. -/
def encryptKeyWithRSA (aesKey publicKey : Str) : AESCiphertext :=
  cryptoJSEncrypt aesKey (deriveSharedSecret publicKey)

/-- The candidate passwords tried by `decryptKeyWithRSA`, in order: the
derived shared secret, the private key itself, and the private key with a
leading `PRIVATE_` replaced by `PUBLIC_`. -/
def rsaCandidates (privateKey : Str) : List Str :=
  [deriveSharedSecret privateKey, privateKey,
    match stripTag privTag privateKey with
    | some r => pubTag ++ r
    | none => privateKey]

/-- The candidate loop of `decryptKeyWithRSA`: return the first nonempty
decryption, or the empty string when every candidate fails. -/
def tryCandidates (ct : AESCiphertext) : List Str → Str
  | [] => []
  | pass :: rest =>
    let plain := cryptoJSDecrypt ct pass
    if plain ≠ [] then plain else tryCandidates ct rest

/-- Model of `decryptKeyWithRSA(encryptedKey, privateKey)` from
`src/lib/encryption.ts`. -/
def decryptKeyWithRSA (encryptedKey : AESCiphertext) (privateKey : Str) : Str :=
  tryCandidates encryptedKey (rsaCandidates privateKey)

/-- Row of the `encrypted_files` table as read by `handleShare`. -/
structure FileRec where
  id : Str
  encrypted_aes_key : AESCiphertext
deriving DecidableEq

/-- Row inserted into the `blockchain_renewed` table by `handleShare`. -/
structure LedgerRow where
  block_index : Nat
  previous_hash : Str
  current_hash : Str
  data_json : BlockData
  sender_id : Str
  receiver_id : Str
deriving DecidableEq

/-- Durable writes issued by `handleShare`, in program order. -/
inductive ShareEvent where
  | updateFile (fileId receiverId : Str) (receiverEncryptedKey : AESCiphertext)
  | updateFolder (folderId receiverId : Str)
  | insertBlock (row : LedgerRow)
deriving DecidableEq

/-- Kind of a share event, for stating ordering facts. -/
inductive EventKind where
  | updFile
  | updFolder
  | insBlock
deriving DecidableEq

/-- Kind of a share event. -/
def eventKind : ShareEvent → EventKind
  | .updateFile _ _ _ => .updFile
  | .updateFolder _ _ => .updFolder
  | .insertBlock _ => .insBlock

/-- Whether an event persists a receiver-wrapped key on a file. -/
def isUpdateFile (e : ShareEvent) : Bool :=
  eventKind e = EventKind.updFile

/-- Whether an event appends a ledger block. -/
def isInsertBlock (e : ShareEvent) : Bool :=
  eventKind e = EventKind.insBlock

/-- Terminal status of one `handleShare` execution. -/
inductive ShareOutcome where
  | notSelected
  | missingReceiverPublicKey
  | missingReceiverPrivateKey
  | missingOwnerPrivateKey
  | noFiles
  | verifyFailed (fileId : Str)
  | success
deriving DecidableEq

/-- Observable result of one `handleShare` execution: the durable writes in
program order, and the terminal status. -/
structure ShareRun where
  events : List ShareEvent
  outcome : ShareOutcome
deriving DecidableEq

/-- Folder prop handed to `ShareFolderDialog`. -/
structure Folder where
  id : Str
  folder_name : Str
  folder_hash : Str
  owner_id : Str
deriving DecidableEq

/-- Inputs of one `handleShare` execution: the dialog state, the key
material fetched from `profiles`, the `encrypted_files` rows of the
folder, the latest `blockchain_renewed` row (index and current hash) if
any, and the two `new Date().toISOString()` readings taken on the success
path (one stored in the block data, one fed to `calculateHash`). -/
structure ShareParams where
  folder : Folder
  selectedDoctor : Str
  receiverPublicKey : Str
  receiverPrivateKey : Str
  ownerPrivateKey : Str
  senderName : Str
  receiverName : Str
  files : List FileRec
  latestBlock : Option (Nat × Str)
  nowData : Str
  nowHash : Str
deriving DecidableEq

/-- The template literal `Folder: ${folder.folder_name} (${files.length}
files)`. -/
def folderShareFileName (name : Str) (n : Nat) : Str :=
  ['F', 'o', 'l', 'd', 'e', 'r', ':', ' '] ++ name ++
    [' ', '('] ++ natToStr n ++ [' ', 'f', 'i', 'l', 'e', 's', ')']

/-- The `BlockData` assembled by `handleShare` for the ledger entry. -/
def mkBlockData (p : ShareParams) : BlockData :=
  ⟨folderShareFileName p.folder.folder_name p.files.length,
    p.folder.folder_hash, p.folder.owner_id, p.senderName,
    some p.selectedDoctor, some p.receiverName, p.nowData⟩

/-- `latestBlock ? latestBlock.block_index + 1 : 0`. -/
def newBlockIndex (p : ShareParams) : Nat :=
  match p.latestBlock with
  | some (i, _) => i + 1
  | none => 0

/-- `latestBlock?.current_hash || "0"` (an empty hash is also replaced by
`"0"` by JS falsiness). -/
def newPreviousHash (p : ShareParams) : Str :=
  match p.latestBlock with
  | some (_, h) => if h = [] then ['0'] else h
  | none => ['0']

/-- The `blockchain_renewed` row inserted by `handleShare`. -/
def mkRow (p : ShareParams) : LedgerRow :=
  ⟨newBlockIndex p, newPreviousHash p,
    calculateHash (newBlockIndex p) p.nowHash (mkBlockData p) (newPreviousHash p),
    mkBlockData p, p.folder.owner_id, p.selectedDoctor⟩

/-- The per-file loop of `handleShare`: decrypt the stored AES key with
the owner private key (JS-falsy result: `continue`), re-encrypt it with
the receiver public key, verify the round trip with the receiver private
key (mismatch or falsy result: `return`, aborting the loop), and otherwise
persist the receiver key on the file.  Returns the file updates issued, in
order, and the id of the file whose verification failed, if any. -/
def shareLoop (ownerPrivateKey receiverPublicKey receiverPrivateKey
    receiverId : Str) : List FileRec → List ShareEvent × Option Str
  | [] => ([], none)
  | f :: rest =>
    let aesKey := decryptKeyWithRSA f.encrypted_aes_key ownerPrivateKey
    if aesKey = [] then
      shareLoop ownerPrivateKey receiverPublicKey receiverPrivateKey receiverId rest
    else
      let receiverEncryptedKey := encryptKeyWithRSA aesKey receiverPublicKey
      let verifiedKey := decryptKeyWithRSA receiverEncryptedKey receiverPrivateKey
      if verifiedKey = [] ∨ verifiedKey ≠ aesKey then
        ([], some f.id)
      else
        let r := shareLoop ownerPrivateKey receiverPublicKey receiverPrivateKey
          receiverId rest
        (ShareEvent.updateFile f.id receiverId receiverEncryptedKey :: r.1, r.2)

/-- The file updates issued by the loop of `handleShare p`. -/
def loopEvents (p : ShareParams) : List ShareEvent :=
  (shareLoop p.ownerPrivateKey p.receiverPublicKey p.receiverPrivateKey
    p.selectedDoctor p.files).1

/-- Model of `handleShare` of `ShareFolderDialog.tsx`: the guard clauses
(no doctor selected, missing key material, empty folder), then the
per-file re-wrap loop, then — only if no verification failed — the folder
update and the ledger insert, in that order.  Collaborator writes are
modelled as always succeeding and are recorded in program order; UI
effects are omitted. -/
def handleShare (p : ShareParams) : ShareRun :=
  if p.selectedDoctor = [] then ⟨[], .notSelected⟩
  else if p.receiverPublicKey = [] then ⟨[], .missingReceiverPublicKey⟩
  else if p.receiverPrivateKey = [] then ⟨[], .missingReceiverPrivateKey⟩
  else if p.ownerPrivateKey = [] then ⟨[], .missingOwnerPrivateKey⟩
  else if p.files = [] then ⟨[], .noFiles⟩
  else
    let r := shareLoop p.ownerPrivateKey p.receiverPublicKey
      p.receiverPrivateKey p.selectedDoctor p.files
    match r.2 with
    | some fid => ⟨r.1, .verifyFailed fid⟩
    | none =>
      ⟨r.1 ++ [ShareEvent.updateFolder p.folder.id p.selectedDoctor,
        ShareEvent.insertBlock (mkRow p)], .success⟩

/-- Link check loop shared by the two dashboard `validateChain` functions:
only `previous_hash` against the predecessor `current_hash`, no hash
recomputation. -/
def validateChainPairs : LedgerRow → List LedgerRow → Bool
  | _, [] => true
  | prev, b :: rest =>
    if b.previous_hash ≠ prev.current_hash then false
    else validateChainPairs b rest

/-- Model of `validateChain` in `BlockchainStatusSection` (loop from index
1 over the ordered rows). -/
def validateChainStatus : List LedgerRow → Bool
  | [] => true
  | b :: rest => validateChainPairs b rest

/-- Model of `validateChain` in `BlockchainValidation` (explicit empty
check, then the same loop). -/
def validateChainRenewed (chainData : List LedgerRow) : Bool :=
  if chainData.length = 0 then true
  else
    match chainData with
    | [] => true
    | b :: rest => validateChainPairs b rest

/-- Specification-side predicate, stated from the claim wording: every
block of the sequence has its `previous_hash` equal to the preceding block
`current_hash`. -/
def linkedSpec : List LedgerRow → Prop
  | [] => True
  | [_] => True
  | a :: b :: rest => b.previous_hash = a.current_hash ∧ linkedSpec (b :: rest)

/-- Decidability of `linkedSpec`. -/
def linkedSpecDec : (rows : List LedgerRow) → Decidable (linkedSpec rows)
  | [] => .isTrue trivial
  | [_] => .isTrue trivial
  | _ :: b :: rest =>
    haveI : Decidable (linkedSpec (b :: rest)) := linkedSpecDec (b :: rest)
    inferInstanceAs (Decidable (_ ∧ _))

instance (rows : List LedgerRow) : Decidable (linkedSpec rows) :=
  linkedSpecDec rows

/-- View of a ledger block as the row the dashboard validators read. -/
def rowOfBlock (b : Block) : LedgerRow :=
  ⟨b.index, b.previousHash, b.hash, b.data, b.data.senderId,
    (b.data.receiverId).getD []⟩

/-- A mutation of exactly one of the five block fields. -/
abbrev differsInOneField (b bm : Block) : Prop :=
  (bm.index ≠ b.index ∧ bm.timestamp = b.timestamp ∧ bm.data = b.data ∧
    bm.previousHash = b.previousHash ∧ bm.hash = b.hash) ∨
  (bm.index = b.index ∧ bm.timestamp ≠ b.timestamp ∧ bm.data = b.data ∧
    bm.previousHash = b.previousHash ∧ bm.hash = b.hash) ∨
  (bm.index = b.index ∧ bm.timestamp = b.timestamp ∧ bm.data ≠ b.data ∧
    bm.previousHash = b.previousHash ∧ bm.hash = b.hash) ∨
  (bm.index = b.index ∧ bm.timestamp = b.timestamp ∧ bm.data = b.data ∧
    bm.previousHash ≠ b.previousHash ∧ bm.hash = b.hash) ∨
  (bm.index = b.index ∧ bm.timestamp = b.timestamp ∧ bm.data = b.data ∧
    bm.previousHash = b.previousHash ∧ bm.hash ≠ b.hash)

/-- Concrete payload used by the blockchain examples. -/
def dA : BlockData := ⟨['a'], ['1'], ['s'], ['S'], none, none, ['t']⟩

/-- Second concrete payload. -/
def dB : BlockData := ⟨['b'], ['2'], ['s'], ['S'], none, none, ['t']⟩

/-- The payload `dA` with only its `fileName` changed. -/
def dAx : BlockData := ⟨['z'], ['1'], ['s'], ['S'], none, none, ['t']⟩

/-- Hash of the genesis block synthesized with wall-clock reading `g`. -/
def genHash : Str := (createGenesisBlock ['g'] ['g'] ['g']).hash

/-- First block actually stored by `addBlock` on an empty chain (payload
`dA`, reading `u`). -/
def c3b0 : Block := ⟨1, ['u'], dA, genHash, calculateHash 1 ['u'] dA genHash⟩

/-- Second stored block (payload `dB`, reading `v`). -/
def c3b1 : Block :=
  ⟨2, ['v'], dB, c3b0.hash, calculateHash 2 ['v'] dB c3b0.hash⟩

/-- The block `c3b0` with only the `fileName` of its payload changed; its
stored hash still commits to the original payload `dA`. -/
def c3b0x : Block :=
  ⟨1, ['u'], dAx, genHash, calculateHash 1 ['u'] dA genHash⟩

/-- The block `c3b1` with only its `timestamp` changed; its stored hash
still commits to the original reading `v`. -/
def c3b1x : Block :=
  ⟨2, ['w'], dB, c3b0.hash, calculateHash 2 ['v'] dB c3b0.hash⟩

/-- Two linked blocks whose stored hashes are not the digest of their
declared fields. -/
def c10b0 : Block := ⟨0, ['t'], dA, ['0'], ['Z']⟩

/-- Second block of the `c10` sequence: correctly linked to `c10b0` but
with a stored hash that is not the digest of its fields. -/
def c10b1 : Block := ⟨1, ['t'], dB, ['Z'], ['W']⟩

/-- The two-block sequence used against the dashboard validators. -/
def c10blocks : List Block := [c10b0, c10b1]

/-- The same sequence as the rows the dashboard validators read. -/
def c10rows : List LedgerRow := c10blocks.map rowOfBlock

/-- Share inputs on which the re-wrap verification fails at file `f2`:
file `f1` has a key wrapped under a passphrase the owner cannot derive
(skipped by the loop), files `f2` and `f3` are owner-wrapped, and the
receiver key pair is mismatched (`PUBLIC_r` against `PRIVATE_q`). -/
def cpFail : ShareParams :=
  ⟨⟨['F'], ['n'], ['h'], ['o', 'w', 'n']⟩, ['d', 'o', 'c'],
    pubTag ++ ['r'], privTag ++ ['q'], privTag ++ ['o'], ['S'], ['R'],
    [⟨['f', '1'], ⟨['k', '1'], ['z']⟩⟩,
      ⟨['f', '2'], ⟨['k', '2'], ['o']⟩⟩,
      ⟨['f', '3'], ⟨['k', '3'], ['o']⟩⟩],
    none, ['T'], ['U']⟩

/-- Share inputs on which the share succeeds: one owner-wrapped file and a
matching receiver key pair. -/
def cpOk : ShareParams :=
  ⟨⟨['F'], ['n'], ['h'], ['o', 'w', 'n']⟩, ['d', 'o', 'c'],
    pubTag ++ ['r'], privTag ++ ['r'], privTag ++ ['o'], ['S'], ['R'],
    [⟨['f', '1'], ⟨['k', '1'], ['o']⟩⟩],
    some (4, ['p', 'h']), ['T'], ['U']⟩

/-- Fuel elimination: with enough fuel, `natToStrAux` computes the decimal
digits. -/
theorem natToStrAux_eq_digits :
    ∀ fuel n, n ≤ fuel →
      natToStrAux fuel n = (Nat.digits 10 n).reverse.map Nat.digitChar := by
  intro fuel
  induction fuel with
  | zero =>
    intro n hn
    interval_cases n
    simp [natToStrAux]
  | succ f ih =>
    intro n hn
    cases n with
    | zero => simp [natToStrAux]
    | succ m =>
      have hdiv : (m + 1) / 10 ≤ f := by
        have := Nat.div_lt_self (Nat.succ_pos m) (by omega : 1 < 10)
        omega
      rw [natToStrAux, ih _ hdiv,
        Nat.digits_def' (by omega : 1 < 10) (Nat.succ_pos m)]
      simp

/-- The digit-to-character map is injective on digits. -/
theorem digitChar_fin_inj :
    ∀ a b : Fin 10, Nat.digitChar a.val = Nat.digitChar b.val → a = b := by
  decide

/-- Mapping `Nat.digitChar` over lists of digits is injective. -/
theorem map_digitChar_inj :
    ∀ l1 l2 : List Nat, (∀ d ∈ l1, d < 10) → (∀ d ∈ l2, d < 10) →
      l1.map Nat.digitChar = l2.map Nat.digitChar → l1 = l2 := by
  intro l1
  induction l1 with
  | nil =>
    intro l2 _ _ h
    cases l2 with
    | nil => rfl
    | cons b bs => simp at h
  | cons a as ih =>
    intro l2 h1 h2 h
    cases l2 with
    | nil => simp at h
    | cons b bs =>
      simp only [List.map_cons, List.cons.injEq] at h
      have ha : a < 10 := h1 a (List.mem_cons_self a as)
      have hb : b < 10 := h2 b (List.mem_cons_self b bs)
      have hab : (⟨a, ha⟩ : Fin 10) = ⟨b, hb⟩ :=
        digitChar_fin_inj ⟨a, ha⟩ ⟨b, hb⟩ h.1
      have habv : a = b := congrArg Fin.val hab
      have htail : as = bs := ih bs
        (fun d hd => h1 d (List.mem_cons_of_mem a hd))
        (fun d hd => h2 d (List.mem_cons_of_mem b hd)) h.2
      rw [habv, htail]

/-- Decimal representation is injective. -/
theorem natToStr_injective : ∀ m n : Nat, natToStr m = natToStr n → m = n := by
  have key : ∀ n : Nat, n ≠ 0 → natToStr n ≠ ['0'] := by
    intro n hn h
    rw [natToStr, if_neg hn, natToStrAux_eq_digits n n (Nat.le_refl n)] at h
    have hlen : (Nat.digits 10 n).length = 1 := by
      have := congrArg List.length h
      simpa using this
    obtain ⟨d, hd⟩ := List.length_eq_one.mp hlen
    rw [hd] at h
    simp only [List.reverse_cons, List.reverse_nil, List.nil_append,
      List.map_cons, List.map_nil, List.cons.injEq] at h
    have hdlt : d < 10 := Nat.digits_lt_base (by omega) (by rw [hd]; simp)
    have : (⟨d, hdlt⟩ : Fin 10) = ⟨0, by omega⟩ :=
      digitChar_fin_inj _ _ (by simpa using h.1)
    have hd0 : d = 0 := congrArg Fin.val this
    have := Nat.ofDigits_digits 10 n
    rw [hd, hd0] at this
    simp [Nat.ofDigits] at this
    exact hn this.symm
  intro m n h
  by_cases hm : m = 0 <;> by_cases hn : n = 0
  · rw [hm, hn]
  · exact absurd ((by rw [← h, hm, natToStr]; simp) : natToStr n = ['0'])
      (key n hn)
  · exact absurd ((by rw [h, hn, natToStr]; simp) : natToStr m = ['0'])
      (key m hm)
  · rw [natToStr, if_neg hm, natToStrAux_eq_digits m m (Nat.le_refl m),
      natToStr, if_neg hn, natToStrAux_eq_digits n n (Nat.le_refl n)] at h
    have hdig : Nat.digits 10 m = Nat.digits 10 n := by
      have hrev := map_digitChar_inj _ _
        (fun d hd => Nat.digits_lt_base (by omega) (List.mem_reverse.mp hd))
        (fun d hd => Nat.digits_lt_base (by omega) (List.mem_reverse.mp hd)) h
      exact List.reverse_injective hrev
    have := congrArg (Nat.ofDigits 10) hdig
    rwa [Nat.ofDigits_digits, Nat.ofDigits_digits] at this

/-- Unfolding lemma for `esc` on a cons cell. -/
theorem esc_cons (c : Char) (s : Str) : esc (c :: s) = escChar c ++ esc s :=
  rfl

/-- Parsing determinism of the escaped serialization: a serialized field
followed by an unescaped separator determines the field and the rest. -/
theorem esc_sep :
    ∀ (a r1 b r2 : Str),
      esc a ++ ',' :: r1 = esc b ++ ',' :: r2 → a = b ∧ r1 = r2 := by
  intro a
  induction a with
  | nil =>
    intro r1 b r2 h
    cases b with
    | nil =>
      simp only [esc, List.nil_append, List.cons.injEq] at h
      exact ⟨rfl, h.2⟩
    | cons c bs =>
      exfalso
      rw [esc_cons] at h
      by_cases hc : c = '\\' ∨ c = ','
      · rw [escChar, if_pos hc] at h
        simp only [esc, List.nil_append, List.cons_append,
          List.cons.injEq] at h
        exact absurd h.1 (by decide)
      · rw [escChar, if_neg hc] at h
        simp only [esc, List.nil_append, List.cons_append, List.nil_append,
          List.cons.injEq] at h
        exact hc (Or.inr h.1.symm)
  | cons c as ih =>
    intro r1 b r2 h
    cases b with
    | nil =>
      exfalso
      rw [esc_cons] at h
      by_cases hc : c = '\\' ∨ c = ','
      · rw [escChar, if_pos hc] at h
        simp only [esc, List.nil_append, List.cons_append,
          List.cons.injEq] at h
        exact absurd h.1 (by decide)
      · rw [escChar, if_neg hc] at h
        simp only [esc, List.nil_append, List.cons_append, List.nil_append,
          List.cons.injEq] at h
        exact hc (Or.inr h.1)
    | cons e bs =>
      rw [esc_cons, esc_cons] at h
      by_cases hc : c = '\\' ∨ c = ','
      · by_cases he : e = '\\' ∨ e = ','
        · rw [escChar, if_pos hc, escChar, if_pos he] at h
          simp only [List.cons_append, List.nil_append, List.append_assoc,
            List.cons.injEq] at h
          obtain ⟨-, hce, htail⟩ := h
          obtain ⟨h1, h2⟩ := ih r1 bs r2 htail
          exact ⟨by rw [hce, h1], h2⟩
        · exfalso
          rw [escChar, if_pos hc, escChar, if_neg he] at h
          simp only [List.cons_append, List.nil_append, List.append_assoc,
            List.cons.injEq] at h
          exact he (Or.inl h.1.symm)
      · by_cases he : e = '\\' ∨ e = ','
        · exfalso
          rw [escChar, if_neg hc, escChar, if_pos he] at h
          simp only [List.cons_append, List.nil_append, List.append_assoc,
            List.cons.injEq] at h
          exact hc (Or.inl h.1)
        · rw [escChar, if_neg hc, escChar, if_neg he] at h
          simp only [List.cons_append, List.nil_append, List.append_assoc,
            List.cons.injEq] at h
          obtain ⟨hce, htail⟩ := h
          obtain ⟨h1, h2⟩ := ih r1 bs r2 htail
          exact ⟨by rw [hce, h1], h2⟩

/-- Injectivity of one serialized field plus remainder. -/
theorem fld_inj {a r1 b r2 : Str} (h : fld a r1 = fld b r2) :
    a = b ∧ r1 = r2 :=
  esc_sep a r1 b r2 h

/-- Injectivity of the optional-field encoding. -/
theorem optEnc_inj : ∀ {o1 o2 : Option Str}, optEnc o1 = optEnc o2 → o1 = o2 := by
  intro o1 o2 h
  cases o1 <;> cases o2 <;> simp [optEnc] at h <;> simp [h]

/-- Injectivity of the `BlockData` serialization. -/
theorem stringifyData_inj {d1 d2 : BlockData}
    (h : stringifyData d1 = stringifyData d2) : d1 = d2 := by
  obtain ⟨f1, g1, s1, n1, r1, q1, t1⟩ := d1
  obtain ⟨f2, g2, s2, n2, r2, q2, t2⟩ := d2
  simp only [stringifyData] at h
  obtain ⟨e1, h⟩ := fld_inj h
  obtain ⟨e2, h⟩ := fld_inj h
  obtain ⟨e3, h⟩ := fld_inj h
  obtain ⟨e4, h⟩ := fld_inj h
  obtain ⟨e5, h⟩ := fld_inj h
  obtain ⟨e6, h⟩ := fld_inj h
  obtain ⟨e7, -⟩ := fld_inj h
  simp only [BlockData.mk.injEq]
  exact ⟨e1, e2, e3, e4, optEnc_inj e5, optEnc_inj e6, e7⟩

/-- The digest model is injective in its four arguments jointly (and hence
in each argument separately). -/
theorem calculateHash_inj {i t d p i' t' d' p'}
    (h : calculateHash i t d p = calculateHash i' t' d' p') :
    i = i' ∧ t = t' ∧ d = d' ∧ p = p' := by
  simp only [calculateHash, List.cons.injEq, true_and] at h
  obtain ⟨e1, h⟩ := fld_inj h
  obtain ⟨e2, h⟩ := fld_inj h
  obtain ⟨e3, h⟩ := fld_inj h
  obtain ⟨e4, -⟩ := fld_inj h
  exact ⟨natToStr_injective _ _ e1, e2, stringifyData_inj e3, e4⟩

/-- Unfolding of the loop body check. -/
theorem checkBlockPair_eq_true {pb b : Block} :
    checkBlockPair pb b = true ↔
      b.hash = calculateHash b.index b.timestamp b.data b.previousHash ∧
        b.previousHash = pb.hash := by
  rw [checkBlockPair]
  split
  · simp_all
  · split <;> simp_all

/-- A later failing pair makes the whole walk fail. -/
theorem validFrom_of_pair_false :
    ∀ (u : List Block) (prev v : Block) (w : List Block),
      checkBlockPair (lastD prev u) v = false →
      validFrom prev (u ++ v :: w) = false := by
  intro u
  induction u with
  | nil =>
    intro prev v w h
    simp only [List.nil_append, validFrom, lastD] at *
    rw [h]
    simp
  | cons x xs ih =>
    intro prev v w h
    simp only [List.cons_append, validFrom]
    by_cases hx : checkBlockPair prev x = true
    · rw [if_pos hx]
      exact ih x v w h
    · rw [if_neg hx]

/-- A successful walk validates every adjacent pair. -/
theorem validFrom_pair_true :
    ∀ (u : List Block) (prev v : Block) (w : List Block),
      validFrom prev (u ++ v :: w) = true →
      checkBlockPair (lastD prev u) v = true := by
  intro u
  induction u with
  | nil =>
    intro prev v w h
    simp only [List.nil_append, validFrom, lastD] at *
    by_cases hv : checkBlockPair prev v = true
    · exact hv
    · rw [if_neg hv] at h; exact absurd h (by simp)
  | cons x xs ih =>
    intro prev v w h
    simp only [List.cons_append, validFrom] at h
    by_cases hx : checkBlockPair prev x = true
    · rw [if_pos hx] at h
      exact ih x v w h
    · rw [if_neg hx] at h; exact absurd h (by simp)

/-- Appending a correctly hashed and linked block preserves a valid walk. -/
theorem validFrom_append_one :
    ∀ (u : List Block) (prev x : Block),
      validFrom prev u = true → checkBlockPair (lastD prev u) x = true →
      validFrom prev (u ++ [x]) = true := by
  intro u
  induction u with
  | nil =>
    intro prev x _ hx
    simp only [List.nil_append, validFrom, lastD] at *
    rw [if_pos hx]
  | cons y ys ih =>
    intro prev x h hx
    simp only [validFrom, List.cons_append] at *
    by_cases hy : checkBlockPair prev y = true
    · rw [if_pos hy] at h ⊢
      exact ih y x h hx
    · rw [if_neg hy] at h; exact absurd h (by simp)

/-- The block produced by `addBlock` passes the pair check against the
previous block `addBlock` selected. -/
theorem addBlock_pair (chain : List Block) (data : BlockData)
    (g1 g2 g3 now : Str) :
    checkBlockPair (latestOr (createGenesisBlock g1 g2 g3) chain)
      (addBlock chain data g1 g2 g3 now).2 = true := by
  rw [checkBlockPair_eq_true]
  exact ⟨rfl, rfl⟩

/-- Adding a block with `addBlock` preserves chain validity. -/
theorem addBlock_preserves_valid (chain : List Block) (data : BlockData)
    (g1 g2 g3 now : Str) (h : isChainValid chain = true) :
    isChainValid (addBlock chain data g1 g2 g3 now).1 = true := by
  cases chain with
  | nil => rfl
  | cons x xs =>
    have hp := addBlock_pair (x :: xs) data g1 g2 g3 now
    simp only [latestOr] at hp
    simp only [isChainValid] at h
    simp only [addBlock, isChainValid, List.cons_append]
    exact validFrom_append_one xs x _ h hp

/-- Chains built solely by repeated `addBlock` from a valid chain stay
valid. -/
theorem buildChain_preserves_valid (g1 g2 g3 : Str) :
    ∀ (inputs : List (BlockData × Str)) (chain : List Block),
      isChainValid chain = true →
      isChainValid (buildChain g1 g2 g3 chain inputs) = true := by
  intro inputs
  induction inputs with
  | nil => intro chain h; exact h
  | cons e rest ih =>
    intro chain h
    obtain ⟨d, now⟩ := e
    exact ih _ (addBlock_preserves_valid chain d g1 g2 g3 now h)

/-- Stripping a tag off a string that carries it returns the remainder. -/
theorem stripTag_pre : ∀ (p s : Str), stripTag p (p ++ s) = some s := by
  intro p
  induction p with
  | nil => intro s; rfl
  | cons c cs ih => intro s; simp [stripTag, ih]

/-- `PUBLIC_` is not a prefix of a `PRIVATE_`-tagged key. -/
theorem stripTag_pub_of_priv (s : Str) :
    stripTag pubTag (privTag ++ s) = none := by
  simp [pubTag, privTag, stripTag]

/-- `PRIVATE_` is not a prefix of a `PUBLIC_`-tagged key. -/
theorem stripTag_priv_of_pub (s : Str) :
    stripTag privTag (pubTag ++ s) = none := by
  simp [pubTag, privTag, stripTag]

/-- The shared secret derived from a demo public key is its raw part. -/
theorem dss_pub (s : Str) : deriveSharedSecret (pubTag ++ s) = s := by
  simp [deriveSharedSecret, stripTag_pre]

/-- The shared secret derived from a demo private key is its raw part. -/
theorem dss_priv (s : Str) : deriveSharedSecret (privTag ++ s) = s := by
  simp [deriveSharedSecret, stripTag_pub_of_priv, stripTag_pre]

/-- Candidate passwords tried for a demo private key. -/
theorem rsaCandidates_priv (x : Str) :
    rsaCandidates (privTag ++ x) = [x, privTag ++ x, pubTag ++ x] := by
  simp [rsaCandidates, dss_priv, stripTag_pre]

/-- Candidate passwords tried when a demo public key is passed as the
private key. -/
theorem rsaCandidates_pub (x : Str) :
    rsaCandidates (pubTag ++ x) = [x, pubTag ++ x, pubTag ++ x] := by
  simp [rsaCandidates, dss_pub, stripTag_priv_of_pub]

/-- Decrypting a ciphertext with an empty payload yields the empty string
under every password. -/
theorem cryptoJSDecrypt_nil (p c : Str) : cryptoJSDecrypt ⟨[], p⟩ c = [] := by
  rw [cryptoJSDecrypt]
  split <;> rfl

/-- The candidate loop on an empty payload always fails. -/
theorem tryCandidates_nil_payload (p : Str) :
    ∀ cs : List Str, tryCandidates ⟨[], p⟩ cs = [] := by
  intro cs
  induction cs with
  | nil => rfl
  | cons c rest ih => simp [tryCandidates, cryptoJSDecrypt_nil, ih]

/-- The candidate loop recovers a nonempty payload exactly when the
wrapping password is among the candidates. -/
theorem tryCandidates_mem (a sp : Str) (ha : a ≠ []) :
    ∀ cs : List Str,
      tryCandidates ⟨a, sp⟩ cs = if sp ∈ cs then a else [] := by
  intro cs
  induction cs with
  | nil => simp [tryCandidates]
  | cons c rest ih =>
    by_cases hc : sp = c
    · subst hc
      simp [tryCandidates, cryptoJSDecrypt, ha]
    · have : cryptoJSDecrypt ⟨a, sp⟩ c = [] := by
        simp [cryptoJSDecrypt, hc]
      simp [tryCandidates, this, ih, List.mem_cons, hc]

/-- Round trip of the demo wrap and unwrap under a matching key pair. -/
theorem unwrap_wrap_roundtrip (k x : Str) :
    decryptKeyWithRSA (encryptKeyWithRSA k (pubTag ++ x)) (privTag ++ x) = k := by
  by_cases hk : k = []
  · subst hk
    simp [decryptKeyWithRSA, encryptKeyWithRSA, cryptoJSEncrypt,
      tryCandidates_nil_payload]
  · simp [decryptKeyWithRSA, encryptKeyWithRSA, cryptoJSEncrypt, dss_pub,
      rsaCandidates_priv, tryCandidates_mem k x hk]

/-- Value of the verification decrypt in `handleShare`: the key survives
exactly when the receiver-side shared secret is among the candidate
passwords derived from the receiver private key. -/
theorem verify_value (a rPub rPriv : Str) (ha : a ≠ []) :
    decryptKeyWithRSA (encryptKeyWithRSA a rPub) rPriv =
      if deriveSharedSecret rPub ∈ rsaCandidates rPriv then a else [] := by
  simp [decryptKeyWithRSA, encryptKeyWithRSA, cryptoJSEncrypt,
    tryCandidates_mem a _ ha]

/-- When the receiver-side shared secret is among the candidate passwords,
the per-file loop never reports a verification failure. -/
theorem shareLoop_none_of_candidate (o rPub rPriv rid : Str)
    (hsp : deriveSharedSecret rPub ∈ rsaCandidates rPriv) :
    ∀ files : List FileRec, (shareLoop o rPub rPriv rid files).2 = none := by
  intro files
  induction files with
  | nil => rfl
  | cons f rest ih =>
    rw [shareLoop]
    by_cases ha : decryptKeyWithRSA f.encrypted_aes_key o = []
    · rw [if_pos ha]
      exact ih
    · rw [if_neg ha]
      have hv : decryptKeyWithRSA
          (encryptKeyWithRSA (decryptKeyWithRSA f.encrypted_aes_key o) rPub)
          rPriv = decryptKeyWithRSA f.encrypted_aes_key o := by
        rw [verify_value _ _ _ ha, if_pos hsp]
      rw [if_neg (by simp [hv, ha])]
      exact ih

/-- When the per-file loop reports a verification failure, it has issued no
file update at all: the verification outcome does not depend on the
per-file key, so a failure strikes the first file that is not skipped. -/
theorem shareLoop_failed_events_nil (o rPub rPriv rid : Str) :
    ∀ (files : List FileRec) (fid : Str),
      (shareLoop o rPub rPriv rid files).2 = some fid →
      (shareLoop o rPub rPriv rid files).1 = [] := by
  intro files
  induction files with
  | nil => intro fid h; exact absurd h (by simp [shareLoop])
  | cons f rest ih =>
    intro fid h
    rw [shareLoop] at h ⊢
    by_cases ha : decryptKeyWithRSA f.encrypted_aes_key o = []
    · rw [if_pos ha] at h ⊢
      exact ih fid h
    · rw [if_neg ha] at h ⊢
      by_cases hsp : deriveSharedSecret rPub ∈ rsaCandidates rPriv
      · have hv : decryptKeyWithRSA
            (encryptKeyWithRSA (decryptKeyWithRSA f.encrypted_aes_key o) rPub)
            rPriv = decryptKeyWithRSA f.encrypted_aes_key o := by
          rw [verify_value _ _ _ ha, if_pos hsp]
        rw [if_neg (by simp [hv, ha])] at h
        exact absurd (by rw [shareLoop_none_of_candidate o rPub rPriv rid hsp rest] at h; exact h)
          (by simp)
      · have hv : decryptKeyWithRSA
            (encryptKeyWithRSA (decryptKeyWithRSA f.encrypted_aes_key o) rPub)
            rPriv = [] := by
          rw [verify_value _ _ _ ha, if_neg hsp]
        rw [if_pos (by simp [hv])] at h ⊢

/-- Every event issued by the per-file loop is a file update. -/
theorem shareLoop_events_updateFile (o rPub rPriv rid : Str) :
    ∀ files : List FileRec,
      ∀ e ∈ (shareLoop o rPub rPriv rid files).1, isUpdateFile e = true := by
  intro files
  induction files with
  | nil => intro e he; exact absurd he (by simp [shareLoop])
  | cons f rest ih =>
    intro e he
    rw [shareLoop] at he
    by_cases ha : decryptKeyWithRSA f.encrypted_aes_key o = []
    · rw [if_pos ha] at he
      exact ih e he
    · rw [if_neg ha] at he
      by_cases hc : (decryptKeyWithRSA
          (encryptKeyWithRSA (decryptKeyWithRSA f.encrypted_aes_key o) rPub)
          rPriv = [] ∨
        decryptKeyWithRSA
          (encryptKeyWithRSA (decryptKeyWithRSA f.encrypted_aes_key o) rPub)
          rPriv ≠ decryptKeyWithRSA f.encrypted_aes_key o)
      · rw [if_pos hc] at he
        exact absurd he (by simp)
      · rw [if_neg hc] at he
        simp only [List.mem_cons] at he
        cases he with
        | inl h => rw [h]; rfl
        | inr h => exact ih e h

/-- On a verification failure, `handleShare` has issued no durable write. -/
theorem handleShare_verifyFailed_events (p : ShareParams) (fid : Str)
    (h : (handleShare p).outcome = ShareOutcome.verifyFailed fid) :
    (handleShare p).events = [] := by
  simp only [handleShare] at h ⊢
  split_ifs at h ⊢
  cases hsc : (shareLoop p.ownerPrivateKey p.receiverPublicKey
      p.receiverPrivateKey p.selectedDoctor p.files).2 with
  | none => rw [hsc] at h; exact ShareOutcome.noConfusion h
  | some fid2 => exact shareLoop_failed_events_nil _ _ _ _ p.files fid2 hsc

/-- On success, the durable writes of `handleShare` are the file updates
issued by the loop, then the folder update, then the ledger insert. -/
theorem handleShare_success_shape (p : ShareParams)
    (h : (handleShare p).outcome = ShareOutcome.success) :
    (handleShare p).events = loopEvents p ++
      [ShareEvent.updateFolder p.folder.id p.selectedDoctor,
        ShareEvent.insertBlock (mkRow p)] := by
  simp only [handleShare] at h ⊢
  split_ifs at h ⊢
  cases hsc : (shareLoop p.ownerPrivateKey p.receiverPublicKey
      p.receiverPrivateKey p.selectedDoctor p.files).2 with
  | none => rfl
  | some fid2 => rw [hsc] at h; exact ShareOutcome.noConfusion h

/-- A sequence whose adjacent links all match passes the dashboard link
loop. -/
theorem linked_pairs :
    ∀ (rest : List LedgerRow) (prev : LedgerRow),
      linkedSpec (prev :: rest) → validateChainPairs prev rest = true := by
  intro rest
  induction rest with
  | nil => intro prev _; rfl
  | cons b bs ih =>
    intro prev h
    simp only [linkedSpec] at h
    rw [validateChainPairs, if_neg (by simp [h.1])]
    exact ih b h.2

/-- Both dashboard validators accept every link-consistent sequence. -/
theorem linked_implies_validators (rows : List LedgerRow)
    (h : linkedSpec rows) :
    validateChainStatus rows = true ∧ validateChainRenewed rows = true := by
  cases rows with
  | nil => exact ⟨rfl, rfl⟩
  | cons a rest =>
    have hp := linked_pairs rest a h
    refine ⟨hp, ?_⟩
    simp only [validateChainRenewed]
    rw [if_neg (by simp)]
    exact hp

/-- Claim C1: re-wrap preserves key identity.  For every content key `k`
and demo key pairs `(PUBLIC_x1, PRIVATE_x1)` and `(PUBLIC_x2, PRIVATE_x2)`,
unwrapping the re-wrap of the unwrapped owner-wrapped key returns exactly
`k`: the content key value is identical before and after the re-wrap. -/
theorem rewrap_preserves_key_identity (k x1 x2 : Str) :
    decryptKeyWithRSA
      (encryptKeyWithRSA
        (decryptKeyWithRSA (encryptKeyWithRSA k (pubTag ++ x1))
          (privTag ++ x1))
        (pubTag ++ x2))
      (privTag ++ x2) = k := by
  rw [unwrap_wrap_roundtrip, unwrap_wrap_roundtrip]

/-- Claim C5: `isChainValid` accepts honest chains — the empty sequence,
any single-block sequence, and every chain built solely by repeated
`addBlock` from the empty chain. -/
theorem validate_accepts_honest_chains :
    isChainValid [] = true ∧ (∀ b : Block, isChainValid [b] = true) ∧
      (∀ (g1 g2 g3 : Str) (inputs : List (BlockData × Str)),
        isChainValid (buildChain g1 g2 g3 [] inputs) = true) :=
  ⟨rfl, fun _ => rfl,
    fun g1 g2 g3 inputs => buildChain_preserves_valid g1 g2 g3 inputs [] rfl⟩

/-- Claim C4 (amended): `addBlock` on an empty chain synthesizes a genesis
block internally (index 0, previous hash `"0"`) but the block it actually
adds and returns has index 1 and previous hash equal to the synthesized
genesis hash; with a nonempty chain it links to the last block `t`,
producing index `t.index + 1` and previous hash `t.hash`. -/
theorem addBlock_append_semantics :
    (∀ g1 g2 g3 : Str, (createGenesisBlock g1 g2 g3).index = 0 ∧
      (createGenesisBlock g1 g2 g3).previousHash = ['0']) ∧
    (∀ (d : BlockData) (g1 g2 g3 now : Str),
      (addBlock [] d g1 g2 g3 now).2.index = 1 ∧
      (addBlock [] d g1 g2 g3 now).2.previousHash =
        (createGenesisBlock g1 g2 g3).hash ∧
      (addBlock [] d g1 g2 g3 now).1 = [(addBlock [] d g1 g2 g3 now).2]) ∧
    (∀ (x : Block) (xs : List Block) (d : BlockData) (g1 g2 g3 now : Str),
      (addBlock (x :: xs) d g1 g2 g3 now).2.index = (lastD x xs).index + 1 ∧
      (addBlock (x :: xs) d g1 g2 g3 now).2.previousHash = (lastD x xs).hash) :=
  ⟨fun _ _ _ => ⟨rfl, rfl⟩, fun _ _ _ _ _ => ⟨rfl, rfl, rfl⟩,
    fun _ _ _ _ _ _ _ => ⟨rfl, rfl⟩⟩

/-- Claim C4 counterexample: the first block actually added to an empty
chain has index 1, not 0, and its previous hash is the synthesized genesis
hash, not `"0"`. -/
theorem addBlock_empty_chain_cex :
    (addBlock [] dA ['g'] ['g'] ['g'] ['u']).2.index = 1 ∧
      (addBlock [] dA ['g'] ['g'] ['g'] ['u']).2.index ≠ 0 ∧
      (addBlock [] dA ['g'] ['g'] ['g'] ['u']).2.previousHash ≠ ['0'] := by
  decide

/-- Claim C9: the demo wrap offers no asymmetric protection — for every
nonempty content key, unwrapping with only the wrapping public key
succeeds, because public and private key strings derive the same shared
secret. -/
theorem public_key_alone_unwraps (k x : Str) (hk : k ≠ []) :
    decryptKeyWithRSA (encryptKeyWithRSA k (pubTag ++ x)) (pubTag ++ x) = k := by
  simp [decryptKeyWithRSA, encryptKeyWithRSA, cryptoJSEncrypt, dss_pub,
    rsaCandidates_pub, tryCandidates_mem k x hk]

/-- Witness for `public_key_alone_unwraps` at a concrete key. -/
theorem public_key_alone_unwraps_witness :
    (['k'] : Str) ≠ [] ∧
      decryptKeyWithRSA (encryptKeyWithRSA ['k'] (pubTag ++ ['a']))
        (pubTag ++ ['a']) = ['k'] :=
  ⟨by decide, public_key_alone_unwraps ['k'] ['a'] (by decide)⟩

/-- Claim C7 counterexample: unwrapping with a non-corresponding private
key does not fail with any error value — `decryptKeyWithRSA` silently
returns the empty string. -/
theorem unwrap_mismatch_returns_empty_cex :
    decryptKeyWithRSA (encryptKeyWithRSA ['k'] (pubTag ++ ['a']))
      (privTag ++ ['b']) = [] ∧ ([] : Str) ≠ ['k'] := by
  decide

/-- Claim C7 (amended): unwrapping with a private key that does not
correspond to the wrapping public key returns the empty string — there is
no `KeyUnwrapError`; emptiness is the failure signal, distinguishable from
any valid (nonempty) content key. -/
theorem unwrap_mismatched_key_returns_empty (k x y : Str) (h1 : x ≠ y)
    (h2 : x ≠ privTag ++ y) (h3 : x ≠ pubTag ++ y) :
    decryptKeyWithRSA (encryptKeyWithRSA k (pubTag ++ x))
      (privTag ++ y) = [] := by
  by_cases hk : k = []
  · subst hk
    simp [decryptKeyWithRSA, encryptKeyWithRSA, cryptoJSEncrypt,
      tryCandidates_nil_payload]
  · simp [decryptKeyWithRSA, encryptKeyWithRSA, cryptoJSEncrypt, dss_pub,
      rsaCandidates_priv, tryCandidates_mem k x hk, h1, h2, h3]

/-- Witness for `unwrap_mismatched_key_returns_empty` at concrete keys. -/
theorem unwrap_mismatched_key_returns_empty_witness :
    ((['a'] : Str) ≠ ['b'] ∧ (['a'] : Str) ≠ privTag ++ ['b'] ∧
      (['a'] : Str) ≠ pubTag ++ ['b']) ∧
      decryptKeyWithRSA (encryptKeyWithRSA ['q'] (pubTag ++ ['a']))
        (privTag ++ ['b']) = [] :=
  ⟨⟨by decide, by decide, by decide⟩,
    unwrap_mismatched_key_returns_empty ['q'] ['a'] ['b'] (by decide)
      (by decide) (by decide)⟩

/-- Claim C8: the symmetric layer is not authenticated.  The ciphertext of
`"hi"` under key `"k"` with its payload tampered to `"ho"` decrypts with
no integrity failure to the different, nonempty plaintext `"ho"` — the
code returns a different-but-valid plaintext instead of failing. -/
theorem decrypt_tampered_ciphertext_no_failure :
    encryptWithAES ['h', 'i'] ['k'] = ⟨['h', 'i'], ['k']⟩ ∧
      decryptWithAES ⟨['h', 'o'], ['k']⟩ ['k'] = ['h', 'o'] ∧
      (['h', 'o'] : Str) ≠ ['h', 'i'] ∧ (['h', 'o'] : Str) ≠ [] := by
  decide

/-- Claim C3 counterexample: in the two-block chain built by repeated
`addBlock`, changing the single field `data` (its `fileName`) of the first
block of the sequence leaves `isChainValid` equal to `true` — the first
block is never rehashed and no divergence index exists (`isChainValid`
returns only a boolean). -/
theorem tamper_first_block_undetected :
    buildChain ['g'] ['g'] ['g'] [] [(dA, ['u']), (dB, ['v'])] =
        [c3b0, c3b1] ∧
      isChainValid [c3b0, c3b1] = true ∧
      differsInOneField c3b0 c3b0x ∧
      isChainValid [c3b0x, c3b1] = true := by
  decide

/-- Claim C3 (amended): in a chain accepted by `isChainValid`, changing
any single field of any block other than the first block of the sequence
makes `isChainValid` return `false`. -/
theorem tamper_after_first_block_invalidates (l : List Block) (b bm : Block)
    (r : List Block) (hv : isChainValid (l ++ b :: r) = true) (hl : l ≠ [])
    (hd : differsInOneField b bm) : isChainValid (l ++ bm :: r) = false := by
  obtain ⟨x, xs, rfl⟩ := List.exists_cons_of_ne_nil hl
  have hv' : validFrom x (xs ++ b :: r) = true := hv
  have hb := validFrom_pair_true xs x b r hv'
  rw [checkBlockPair_eq_true] at hb
  have hfail : checkBlockPair (lastD x xs) bm = false := by
    refine Bool.eq_false_iff.mpr ?_
    intro hc
    rw [checkBlockPair_eq_true] at hc
    obtain ⟨hh, -⟩ := hc
    rcases hd with ⟨h1, h2, h3, h4, h5⟩ | ⟨h1, h2, h3, h4, h5⟩ |
      ⟨h1, h2, h3, h4, h5⟩ | ⟨h1, h2, h3, h4, h5⟩ | ⟨h1, h2, h3, h4, h5⟩
    · rw [h5, hb.1, h2, h3, h4] at hh
      exact h1 (calculateHash_inj hh).1.symm
    · rw [h5, hb.1, h1, h3, h4] at hh
      exact h2 (calculateHash_inj hh).2.1.symm
    · rw [h5, hb.1, h1, h2, h4] at hh
      exact h3 (calculateHash_inj hh).2.2.1.symm
    · rw [h5, hb.1, h1, h2, h3] at hh
      exact h4 (calculateHash_inj hh).2.2.2.symm
    · rw [h1, h2, h3, h4, ← hb.1] at hh
      exact h5 hh
  exact validFrom_of_pair_false xs x bm r hfail

/-- Witness for `tamper_after_first_block_invalidates`: changing only the
timestamp of the second block of the concrete valid chain makes
`isChainValid` return `false`. -/
theorem tamper_after_first_block_invalidates_witness :
    isChainValid [c3b0, c3b1] = true ∧ ([c3b0] : List Block) ≠ [] ∧
      differsInOneField c3b1 c3b1x ∧
      isChainValid [c3b0, c3b1x] = false :=
  ⟨by decide, by decide, by decide,
    tamper_after_first_block_invalidates [c3b0] c3b1 c3b1x [] (by decide)
      (by decide) (by decide)⟩

/-- Claim C2: group sharing is all-or-nothing on a verification failure.
When `handleShare` ends with `verifyFailed`, it has issued no durable
write at all: no ledger block was inserted and no file — including files
processed before the failing one — received a receiver-wrapped key. -/
theorem share_verify_failure_no_partial_effects (p : ShareParams) (fid : Str)
    (h : (handleShare p).outcome = ShareOutcome.verifyFailed fid) :
    (handleShare p).events = [] ∧
      (∀ i rc k, ShareEvent.updateFile i rc k ∉ (handleShare p).events) ∧
      (∀ row, ShareEvent.insertBlock row ∉ (handleShare p).events) := by
  have he := handleShare_verifyFailed_events p fid h
  refine ⟨he, ?_, ?_⟩
  · intro i rc k
    rw [he]
    simp
  · intro row
    rw [he]
    simp

/-- Witness for `share_verify_failure_no_partial_effects`: on the concrete
inputs `cpFail` (three files, verification failing at file `f2`), the run
ends with `verifyFailed "f2"` and issued no write. -/
theorem share_verify_failure_no_partial_effects_witness :
    (handleShare cpFail).outcome = ShareOutcome.verifyFailed ['f', '2'] ∧
      (handleShare cpFail).events = [] :=
  ⟨by decide,
    (share_verify_failure_no_partial_effects cpFail ['f', '2'] (by decide)).1⟩

/-- Claim C6 counterexample: a successful share issues the file update
first and appends the ledger block last — the ledger write happens after
the grant of access was persisted, not before it. -/
theorem ledger_after_grant_cex :
    (handleShare cpOk).outcome = ShareOutcome.success ∧
      (handleShare cpOk).events.map eventKind =
        [EventKind.updFile, EventKind.updFolder, EventKind.insBlock] := by
  decide

/-- Claim C6 (amended): in every successful execution of the share
operation the ledger block is appended last, after every object receiver
key and the folder receiver were persisted; the audit trail follows the
grant of access rather than preceding it. -/
theorem ledger_block_appended_last (p : ShareParams)
    (h : (handleShare p).outcome = ShareOutcome.success) :
    (handleShare p).events = loopEvents p ++
        [ShareEvent.updateFolder p.folder.id p.selectedDoctor,
          ShareEvent.insertBlock (mkRow p)] ∧
      (∀ e ∈ loopEvents p, isUpdateFile e = true) :=
  ⟨handleShare_success_shape p h,
    fun e he => shareLoop_events_updateFile _ _ _ _ p.files e he⟩

/-- Witness for `ledger_block_appended_last` on the concrete successful
run `cpOk`. -/
theorem ledger_block_appended_last_witness :
    (handleShare cpOk).outcome = ShareOutcome.success ∧
      ((handleShare cpOk).events = loopEvents cpOk ++
        [ShareEvent.updateFolder cpOk.folder.id cpOk.selectedDoctor,
          ShareEvent.insertBlock (mkRow cpOk)] ∧
      (∀ e ∈ loopEvents cpOk, isUpdateFile e = true)) :=
  ⟨by decide, ledger_block_appended_last cpOk (by decide)⟩

/-- Claim C10: the dashboard validators are strictly weaker than
`Blockchain.isChainValid` — they accept every link-consistent sequence
without recomputing any hash, and the concrete sequence `c10blocks`, whose
stored hashes are not the digests of their declared fields, is accepted by
both dashboard validators but rejected by `isChainValid`. -/
theorem dashboard_validators_weaker :
    (∀ rows : List LedgerRow, linkedSpec rows →
      validateChainStatus rows = true ∧ validateChainRenewed rows = true) ∧
      (validateChainStatus c10rows = true ∧
        validateChainRenewed c10rows = true ∧
        c10rows = c10blocks.map rowOfBlock ∧
        c10b1.hash ≠ calculateHash c10b1.index c10b1.timestamp c10b1.data
          c10b1.previousHash ∧
        isChainValid c10blocks = false) :=
  ⟨fun rows h => linked_implies_validators rows h, by decide⟩

/-- Witness for the universally quantified part of
`dashboard_validators_weaker` on the concrete linked rows `c10rows`. -/
theorem dashboard_validators_weaker_witness :
    linkedSpec c10rows ∧
      (validateChainStatus c10rows = true ∧
        validateChainRenewed c10rows = true) :=
  ⟨by decide, dashboard_validators_weaker.1 c10rows (by decide)⟩
